import Mathlib

/-!
Shallow embedding of the avr-uart buffered UART transport (src/src/uart.c)
and its pattern matcher (match.c).  Machine integers are modelled as `Nat`
with explicit wraparound where the C types can overflow; the model fixes the
default size class (buffer lengths below 256, so the RX count lives in a
`uint8_t` and wraps modulo 256).  Fallible or potentially blocking
operations return `Option`: `none` means the C code would busy-wait forever
(or, for the guarded array store in registration, that the store falls
outside the array).
-/

/-- Compile-time constant `UART_MAX_SEQ_LEN` (default configuration). -/
def UART_MAX_SEQ_LEN : Nat := 8

/-- Compile-time constant `UART_MATCH_MAX` (default configuration). -/
def UART_MATCH_MAX : Nat := 8

/-- The runtime state of `struct _uart` in uart.c, together with the one bit
of hardware state the claims observe: whether the data-register-empty
(transmit-ready) interrupt is enabled (`UDRIE0` in `UCSR0B`).
Buffers are `List Nat` of length equal to the compile-time capacity. -/
structure Uart where
  rx_count : Nat
  tx_count : Nat
  rx_in : Nat
  rx_out : Nat
  tx_in : Nat
  tx_out : Nat
  rx_buffer : List Nat
  tx_buffer : List Nat
  udre_enabled : Bool
deriving DecidableEq

/-- The zero-initialized static state (buffers of capacity `N`). -/
def uartInit (N : Nat) : Uart :=
  ⟨0, 0, 0, 0, 0, 0, List.replicate N 0, List.replicate N 0, false⟩

/-- Model of `ISR(port_udre_vect)` from uart.c: if the TX count is nonzero, write the
byte at `tx_out` to the hardware data register (returned as `some b`),
advance `tx_out` with wraparound, decrement the count, and disable the
transmit-ready interrupt when the count reaches zero.  Otherwise do
nothing (`none` emitted). -/
def isr_udre (N : Nat) (s : Uart) : Uart × Option Nat :=
  if 0 < s.tx_count then
    let b := s.tx_buffer.getD s.tx_out 0
    let cnt := s.tx_count - 1
    ({ s with
        tx_out := if s.tx_out + 1 = N then 0 else s.tx_out + 1,
        tx_count := cnt,
        udre_enabled := if cnt = 0 then false else s.udre_enabled }, some b)
  else (s, none)

/-- Run `n` consecutive transmit-ready interrupts, collecting the bytes
written to the hardware data register in order. -/
def isrRun (N : Nat) : Nat → Uart → Uart × List Nat
  | 0, s => (s, [])
  | n + 1, s =>
    let p := isr_udre N s
    let q := isrRun N n p.1
    (q.1, (match p.2 with
           | some b => [b]
           | none => []) ++ q.2)

/-- Model of `uart_send_byte` from uart.c: spins while the TX buffer is full
(modelled as `none`), otherwise increments the count, stores the byte at
`tx_in`, advances `tx_in` with wraparound and leaves the transmit-ready
interrupt enabled. -/
def uart_send_byte (N : Nat) (c : Nat) (s : Uart) : Option Uart :=
  if s.tx_count = N then none
  else some { s with
    tx_count := s.tx_count + 1,
    tx_buffer := s.tx_buffer.set s.tx_in c,
    tx_in := if s.tx_in + 1 = N then 0 else s.tx_in + 1,
    udre_enabled := true }

/-- Repeated blocking sends (`uart_send`), in list order. -/
def sendAll (N : Nat) : List Nat → Uart → Option Uart
  | [], s => some s
  | c :: cs, s => (uart_send_byte N c s).bind (sendAll N cs)

/-- Model of `uart_try_send_byte` from uart.c: when the TX count is below capacity,
performs exactly the mutation of `uart_send_byte` and evaluates to a
non-zero (true) result; on a full buffer it returns false and mutates
nothing. -/
def uart_try_send_byte (N : Nat) (c : Nat) (s : Uart) : Uart × Bool :=
  if s.tx_count < N then
    ({ s with
        tx_count := s.tx_count + 1,
        tx_buffer := s.tx_buffer.set s.tx_in c,
        tx_in := if s.tx_in + 1 = N then 0 else s.tx_in + 1,
        udre_enabled := true }, true)
  else (s, false)

/-- The buffer mutation of `ISR(port_rxc_vect)` from uart.c: store the
received byte at `rx_in`, increment `rx_count` unconditionally (a
`uint8_t` in the default size class, hence modulo 256 — note there is no
buffer-full check), and advance `rx_in` with wraparound.  The pattern
matcher invocation that precedes this store is modelled separately on the
matcher state, which the buffer does not depend on. -/
def isr_rxc (N : Nat) (udr : Nat) (s : Uart) : Uart :=
  { s with
    rx_buffer := s.rx_buffer.set s.rx_in udr,
    rx_count := (s.rx_count + 1) % 256,
    rx_in := if s.rx_in + 1 = N then 0 else s.rx_in + 1 }

/-- Deliver a list of bytes through consecutive receive-complete
interrupts. -/
def rxFeed (N : Nat) (bs : List Nat) (s : Uart) : Uart :=
  bs.foldl (fun t b => isr_rxc N b t) s

/-- Model of `uart_peek_byte` from uart.c: the byte at `rx_out` when the RX count is
positive, the zero sentinel otherwise; no mutation. -/
def uart_peek_byte (s : Uart) : Nat :=
  if 0 < s.rx_count then s.rx_buffer.getD s.rx_out 0 else 0

/-- Model of `uart_try_recv_byte` from uart.c: on an empty RX buffer, the zero
sentinel and no mutation; otherwise the byte at `rx_out`, with `rx_out`
advanced (wraparound) and the count decremented. -/
def uart_try_recv_byte (N : Nat) (s : Uart) : Nat × Uart :=
  if 0 < s.rx_count then
    (s.rx_buffer.getD s.rx_out 0,
     { s with
        rx_count := s.rx_count - 1,
        rx_out := if s.rx_out + 1 = N then 0 else s.rx_out + 1 })
  else (0, s)

/-- Model of `uart_recv_byte` from uart.c: busy-waits until the RX count is positive
(`none` models spinning forever on a permanently empty buffer), then pops
as `uart_try_recv_byte` does. -/
def uart_recv_byte (N : Nat) (s : Uart) : Option (Nat × Uart) :=
  if 0 < s.rx_count then
    some (s.rx_buffer.getD s.rx_out 0,
     { s with
        rx_count := s.rx_count - 1,
        rx_out := if s.rx_out + 1 = N then 0 else s.rx_out + 1 })
  else none

/-- Model of `uart_recv` from uart.c: `n` repeated blocking single-byte receives,
collecting the bytes in order. -/
def recvN (N : Nat) : Nat → Uart → Option (List Nat × Uart)
  | 0, s => some ([], s)
  | n + 1, s =>
    (uart_recv_byte N s).bind fun p =>
      (recvN N n p.2).map fun q => (p.1 :: q.1, q.2)

/-- The copy loop shared by `uart_peek` and the FIFO window abstraction:
read `n` bytes of `buf` starting at index `cur`, advancing the cursor with
the same post-increment wraparound test the C loops use. -/
def bufWindow (N : Nat) (buf : List Nat) : Nat → Nat → List Nat
  | 0, _ => []
  | n + 1, cur =>
    buf.getD cur 0 :: bufWindow N buf n (if cur + 1 = N then 0 else cur + 1)

/-- Model of `uart_peek` from uart.c: clamp the requested length to the RX capacity,
busy-wait until the count reaches it (`none` models the wait never
ending), then copy that many bytes from `rx_out` onward through a local
cursor, returning the bytes and their number; the shared state is only
read. -/
def uart_peek (N : Nat) (s : Uart) (len : Nat) : Option (List Nat × Nat) :=
  let len2 := if len > N then N else len
  if s.rx_count < len2 then none
  else some (bufWindow N s.rx_buffer len2 s.rx_out, len2)

/-- The logical TX FIFO content: `tx_count` bytes starting at `tx_out`. -/
def txQueue (N : Nat) (s : Uart) : List Nat :=
  bufWindow N s.tx_buffer s.tx_count s.tx_out

/-- One `struct _match` entry from match.c: 4-bit progress counter
(`count`), 4-bit length, the `seq` array of `UART_MAX_SEQ_LEN` byte slots,
the callback (modelled as an opaque identifier, `none` for `NULL`) and the
opaque user-data word. -/
structure MatchEntry where
  count : Nat
  len : Nat
  seq : List Nat
  handler : Option Nat
  data : Nat
deriving DecidableEq

/-- A zero-initialized entry slot. -/
def defaultEntry : MatchEntry :=
  ⟨0, 0, List.replicate UART_MAX_SEQ_LEN 0, none, 0⟩

/-- Model of `struct _uart_match` from match.c: the entry table (a dense array of
`UART_MATCH_MAX` slots of which the first `match_idx_max` are live) and the
`uint16_t` bitmask of triggered slots. -/
structure UartMatch where
  match_idx_max : Nat
  entries : List MatchEntry
  triggered_mask : Nat
deriving DecidableEq

/-- The zero-initialized static matcher state. -/
def emptyMatch : UartMatch :=
  ⟨0, List.replicate UART_MATCH_MAX defaultEntry, 0⟩

/-- The copy loop of `uart_register_match`: copy bytes of `str` into `seq`
while the index is below `UART_MAX_SEQ_LEN` and the current source byte is
not the NUL terminator (reading past the end of the list models reading
the terminator).  Returns the updated array and the final index. -/
def copySeqLoop : List Nat → Nat → List Nat → List Nat × Nat
  | [], i, seq => (seq, i)
  | c :: rest, i, seq =>
    if i < UART_MAX_SEQ_LEN ∧ c ≠ 0 then copySeqLoop rest (i + 1) (seq.set i c)
    else (seq, i)

/-- Result of `uart_register_match`: the new matcher state, the `uint8_t`
return value (0 on success, 255 for the `-1` failure), and whether the
terminating NUL store `p_match->seq[i] = 0` fell outside the
`UART_MAX_SEQ_LEN`-byte array (the guarded store's out-of-bounds branch;
in that case the store is dropped by the model — on the target it lands in
the adjacent struct field). -/
structure RegResult where
  state : UartMatch
  ret : Nat
  oob : Bool
deriving DecidableEq

/-- Model of `uart_register_match` from match.c: fail (255) on a missing handler or
a full table with no state change; otherwise copy the sequence (truncated
at `UART_MAX_SEQ_LEN`) into the next free slot, store the terminating NUL
through the guarded array write, record length (a 4-bit field), handler
and data, and increment the live-entry count.  The slot's stale progress
counter is not reset (the C code never writes `count` here). -/
def uart_register_match (str : List Nat) (handler : Option Nat) (data : Nat)
    (m : UartMatch) : RegResult :=
  if handler.isNone then ⟨m, 255, false⟩
  else if m.match_idx_max = UART_MATCH_MAX then ⟨m, 255, false⟩
  else
    let e0 := m.entries.getD m.match_idx_max defaultEntry
    let p := copySeqLoop str 0 e0.seq
    let seq2 := if p.2 < UART_MAX_SEQ_LEN then p.1.set p.2 0 else p.1
    let e1 : MatchEntry :=
      ⟨e0.count, p.2 % 16, seq2, handler, data⟩
    ⟨⟨m.match_idx_max + 1,
      m.entries.set m.match_idx_max e1,
      m.triggered_mask⟩, 0,
     decide (UART_MAX_SEQ_LEN ≤ p.2)⟩

/-- The default (non-`__STRNCMP_MATCH`) comparison loop of
`uart_deregister_match`: compare up to `n` bytes at a common offset,
failing on the first inequality and succeeding early at the stored
sequence's NUL terminator. -/
def cmpLoop : Nat → Nat → List Nat → List Nat → Bool
  | 0, _, _, _ => true
  | n + 1, j, sq, str =>
    if sq.getD j 0 ≠ str.getD j 0 then false
    else if sq.getD j 0 = 0 then true
    else cmpLoop n (j + 1) sq str

/-- Whether a stored entry compares equal to `str` up to the entry's
length, as the deregistration scan does. -/
def entryMatches (e : MatchEntry) (str : List Nat) : Bool :=
  cmpLoop e.len 0 e.seq str

/-- Index of the first live entry matching `str`, scanning in table
order. -/
def findMatchIdx (str : List Nat) : List MatchEntry → Option Nat
  | [] => none
  | e :: rest =>
    if entryMatches e str then some 0
    else (findMatchIdx str rest).map (fun n => n + 1)

/-- Model of `uart_deregister_match` from match.c: a no-op on a `NULL` sequence or
when no live entry matches; on the first match, shift every following live
entry one slot earlier (the slot at the old last live index keeps its now
stale contents) and decrement the live-entry count. -/
def uart_deregister_match (str : Option (List Nat)) (m : UartMatch) : UartMatch :=
  match str with
  | none => m
  | some s =>
    match findMatchIdx s (m.entries.take m.match_idx_max) with
    | none => m
    | some i =>
      ⟨m.match_idx_max - 1,
       (List.range m.entries.length).map (fun j =>
         if i ≤ j ∧ j + 1 < m.match_idx_max then m.entries.getD (j + 1) defaultEntry
         else m.entries.getD j defaultEntry),
       m.triggered_mask⟩

/-- The per-entry body of the `uart_do_match` loop: if the byte equals the
expected byte at the current progress position, increment the 4-bit
progress counter and, when it reaches the length, reset it and report a
trigger; otherwise, when a partial match was in progress, restart at 1 if
the byte equals the first sequence byte, else reset to 0. -/
def matchStep (udr : Nat) (e : MatchEntry) : MatchEntry × Bool :=
  if udr = e.seq.getD e.count 0 then
    if (e.count + 1) % 16 = e.len then ({ e with count := 0 }, true)
    else ({ e with count := (e.count + 1) % 16 }, false)
  else if 0 < e.count then
    if udr = e.seq.getD 0 0 then ({ e with count := 1 }, false)
    else ({ e with count := 0 }, false)
  else (e, false)

/-- The `uart_do_match` loop over the live entries: each entry undergoes
`matchStep`; on the first trigger the function returns immediately (the
corresponding bit is reported and all later entries are left untouched for
this byte). -/
def doMatchList (udr : Nat) (bit : Nat) : List MatchEntry → List MatchEntry × Nat
  | [] => ([], 0)
  | e :: rest =>
    let p := matchStep udr e
    if p.2 then (p.1 :: rest, bit)
    else
      let q := doMatchList udr (bit * 2) rest
      (p.1 :: q.1, q.2)

/-- Model of `uart_do_match` from match.c: a fast no-op on an empty table, otherwise
run the early-exiting loop over the first `match_idx_max` entries and OR
the (at most one) triggered bit into `triggered_mask`. -/
def uart_do_match (udr : Nat) (m : UartMatch) : UartMatch :=
  if m.match_idx_max = 0 then m
  else
    let p := doMatchList udr 1 (m.entries.take m.match_idx_max)
    ⟨m.match_idx_max,
     p.1 ++ m.entries.drop m.match_idx_max,
     m.triggered_mask ||| p.2⟩

/-- Feed a list of bytes through `uart_do_match` in order. -/
def doMatchFeed (bs : List Nat) (m : UartMatch) : UartMatch :=
  bs.foldl (fun t b => uart_do_match b t) m

/-- The three-rule per-entry inspection step exactly as the specification
words it: if the byte extends the current partial match, progress
increments (and the entry triggers on reaching the length, progress
resetting to 0); otherwise, if progress is nonzero and the byte equals the
pattern's first byte, progress resets to 1; otherwise progress resets
to 0. -/
def inspectRule (udr : Nat) (e : MatchEntry) : MatchEntry × Bool :=
  if udr = e.seq.getD e.count 0 then
    if e.count + 1 = e.len then ({ e with count := 0 }, true)
    else ({ e with count := e.count + 1 }, false)
  else if e.count ≠ 0 ∧ udr = e.seq.getD 0 0 then ({ e with count := 1 }, false)
  else ({ e with count := 0 }, false)

/-- Matcher table obtained by registering "ab" and then "abc" (the tie-break
scenario). -/
def regTwo : UartMatch :=
  (uart_register_match [97, 98, 99] (some 2) 0
    (uart_register_match [97, 98] (some 1) 0 emptyMatch).state).state

/-- Matcher table obtained by registering just "cmd". -/
def regCmd : UartMatch :=
  (uart_register_match [99, 109, 100] (some 5) 7 emptyMatch).state

/-- Matcher table obtained by registering "x", "y" and "z" in that order. -/
def regXyz : UartMatch :=
  (uart_register_match [122] (some 13) 0
    (uart_register_match [121] (some 12) 0
      (uart_register_match [120] (some 11) 0 emptyMatch).state).state).state

/-- RX side of a capacity-4 UART after receiving the bytes "AB". -/
def rxAB : Uart := rxFeed 4 [65, 66] (uartInit 4)

/-- Well-formedness of the TX circular buffer: backing storage of capacity
`N`, read index in range, count within capacity, and the write index the
wrapped sum of read index and count. -/
def TxInv (N : Nat) (s : Uart) : Prop :=
  s.tx_buffer.length = N ∧ s.tx_out < N ∧ s.tx_count ≤ N ∧
  s.tx_in = (s.tx_out + s.tx_count) % N

theorem getD_set_self {α : Type} {l : List α} {i : Nat} {v d : α}
    (h : i < l.length) : (l.set i v).getD i d = v := by
  rw [List.getD_eq_getElem _ _ (by simpa using h)]
  simp

theorem getD_set_other {α : Type} {l : List α} {i j : Nat} {v d : α}
    (h : i ≠ j) : (l.set i v).getD j d = l.getD j d := by
  rcases Nat.lt_or_ge j l.length with hj | hj
  · rw [List.getD_eq_getElem _ _ (by simpa using hj),
      List.getD_eq_getElem _ _ hj]
    exact List.getElem_set_ne h _
  · rw [List.getD_eq_default _ _ (by simpa using hj),
      List.getD_eq_default _ _ hj]

theorem getD_take {α : Type} {l : List α} {n j : Nat} {d : α}
    (h : j < n) : (l.take n).getD j d = l.getD j d := by
  rcases Nat.lt_or_ge j l.length with hj | hj
  · have hjt : j < (l.take n).length := by
      rw [List.length_take]; exact lt_min h hj
    rw [List.getD_eq_getElem _ _ hjt, List.getD_eq_getElem _ _ hj]
    exact List.getElem_take l
  · rw [List.getD_eq_default _ _ (by simp [List.length_take]; omega),
      List.getD_eq_default _ _ hj]

theorem getD_range_map {α : Type} (f : Nat → α) {n j : Nat} (d : α)
    (h : j < n) : ((List.range n).map f).getD j d = f j := by
  have hl : j < ((List.range n).map f).length := by
    rw [List.length_map, List.length_range]; exact h
  rw [List.getD_eq_getElem _ _ hl]
  simp

theorem wrapStep {x N : Nat} (h : x < N) :
    (if x + 1 = N then 0 else x + 1) = (x + 1) % N := by
  by_cases hx : x + 1 = N
  · simp [hx]
  · have hlt : x + 1 < N := by omega
    simp [hx, Nat.mod_eq_of_lt hlt]

/-- Claim C1 as written is false on the code: the receive-complete handler
increments `rx_count` unconditionally, so after five invocations with
bytes 1..5 on an RX buffer of capacity 4 the count is 5, not capped
at 4. -/
theorem claim_C1_rx_overflow_counterexample :
    (rxFeed 4 [1, 2, 3, 4, 5] (uartInit 4)).rx_count = 5 ∧
    ¬ ((rxFeed 4 [1, 2, 3, 4, 5] (uartInit 4)).rx_count = 4 ∧
       (rxFeed 4 [1, 2, 3, 4, 5] (uartInit 4)).rx_count ≤ 4) := by
  decide

/-- Claim C1, amended: when the receive-complete handler runs with the RX
buffer already full it does overwrite the oldest queued byte in place via
the wraparound rule (after bytes 1..5 on capacity 4 the storage holds
5,2,3,4 — byte 1 was overwritten by 5 — with the write index back at 1 and
the read index at 0), but `rx_count` is incremented without any cap, so it
reaches 5 and the invariant `count ≤ N` is not preserved by this
handler. -/
theorem claim_C1_rx_overflow_amended :
    (rxFeed 4 [1, 2, 3, 4, 5] (uartInit 4)).rx_buffer = [5, 2, 3, 4] ∧
    (rxFeed 4 [1, 2, 3, 4, 5] (uartInit 4)).rx_count = 5 ∧
    (rxFeed 4 [1, 2, 3, 4, 5] (uartInit 4)).rx_in = 1 ∧
    (rxFeed 4 [1, 2, 3, 4, 5] (uartInit 4)).rx_out = 0 ∧
    (rxFeed 4 [1, 2, 3, 4] (uartInit 4)).rx_buffer = [1, 2, 3, 4] := by
  decide

/-- Claim C2 as written is false on the code: with "ab" registered before
"abc", feeding 'a','b' makes "ab" complete and `uart_do_match` returns
before inspecting "abc" for the byte 'b', so the progress counter of "abc"
is 1 afterwards, not 2. -/
theorem claim_C2_tiebreak_counterexample :
    ¬ ((doMatchFeed [97, 98] regTwo).entries.getD 1 defaultEntry).count = 2 := by
  decide

/-- Claim C2, amended: feeding 'a','b' sets only the trigger bit of "ab"
(bit 0), and the early exit also skips the progress update of "abc" for
the completing byte, leaving its progress at 1; the subsequent 'c'
therefore does not complete "abc" — it resets its progress to 0 and the
triggered mask still holds only bit 0. -/
theorem claim_C2_tiebreak_amended :
    (doMatchFeed [97, 98] regTwo).triggered_mask = 1 ∧
    ((doMatchFeed [97, 98] regTwo).entries.getD 0 defaultEntry).count = 0 ∧
    ((doMatchFeed [97, 98] regTwo).entries.getD 1 defaultEntry).count = 1 ∧
    (doMatchFeed [97, 98, 99] regTwo).triggered_mask = 1 ∧
    ((doMatchFeed [97, 98, 99] regTwo).entries.getD 1 defaultEntry).count = 0 := by
  decide

/-- Claim C3: the code is wrong.  Registering a sequence of length
`UART_MAX_SEQ_LEN` (or longer) drives the copy-loop index to
`UART_MAX_SEQ_LEN`, and the terminating NUL store `p_match->seq[i] = 0`
then falls one slot past the end of the `UART_MAX_SEQ_LEN`-byte array: the
out-of-bounds branch of the guarded store is reachable.  For a 7-byte
sequence every store is in bounds. -/
theorem claim_C3_register_oob_store :
    (uart_register_match [97, 98, 99, 100, 101, 102, 103, 104]
      (some 1) 0 emptyMatch).oob = true ∧
    (uart_register_match [97, 98, 99, 100, 101, 102, 103]
      (some 1) 0 emptyMatch).oob = false := by
  decide

/-- Claim C8: on a full TX buffer (`count = N`) the non-blocking send
returns false and performs no mutation at all; on a non-full buffer it
stores the byte at the write index, advances it with wraparound,
increments the count, leaves the transmit interrupt enabled, and returns
the non-zero (true) result. -/
theorem claim_C8_try_send (N c : Nat) (s : Uart) :
    (s.tx_count = N → uart_try_send_byte N c s = (s, false)) ∧
    (s.tx_count < N →
      uart_try_send_byte N c s =
        ({ s with
            tx_count := s.tx_count + 1,
            tx_buffer := s.tx_buffer.set s.tx_in c,
            tx_in := if s.tx_in + 1 = N then 0 else s.tx_in + 1,
            udre_enabled := true }, true)) := by
  constructor
  · intro h
    have hn : ¬ s.tx_count < N := by omega
    simp [uart_try_send_byte, hn]
  · intro h
    simp [uart_try_send_byte, h]

/-- Witness for claim C8 at capacity 4: a full buffer rejects the byte with
no mutation, an empty buffer accepts it. -/
theorem claim_C8_try_send_witness :
    uart_try_send_byte 4 7 { uartInit 4 with tx_count := 4 } =
      ({ uartInit 4 with tx_count := 4 }, false) ∧
    uart_try_send_byte 4 7 (uartInit 4) =
      ({ uartInit 4 with
          tx_count := 1,
          tx_buffer := [7, 0, 0, 0],
          tx_in := 1,
          udre_enabled := true }, true) := by
  constructor
  · exact (claim_C8_try_send 4 7 { uartInit 4 with tx_count := 4 }).1 (by decide)
  · exact ((claim_C8_try_send 4 7 (uartInit 4)).2 (by decide)).trans (by decide)

/-- Claim C10: on an empty RX buffer both the single-byte peek and the
non-blocking receive return the zero byte and the receive leaves the state
untouched; on a non-empty buffer the peek returns the oldest pending byte
(at `rx_out`) without mutating anything, and the non-blocking receive
returns that same byte while advancing `rx_out` with wraparound and
decrementing the count, leaving the stored bytes and all TX state
unchanged. -/
theorem claim_C10_try_recv_peek (N : Nat) (s : Uart) :
    (s.rx_count = 0 →
      uart_peek_byte s = 0 ∧ uart_try_recv_byte N s = (0, s)) ∧
    (0 < s.rx_count →
      uart_peek_byte s = s.rx_buffer.getD s.rx_out 0 ∧
      uart_try_recv_byte N s =
        (s.rx_buffer.getD s.rx_out 0,
         { s with
            rx_count := s.rx_count - 1,
            rx_out := if s.rx_out + 1 = N then 0 else s.rx_out + 1 }) ∧
      (uart_try_recv_byte N s).1 = uart_peek_byte s) := by
  constructor
  · intro h
    have hn : ¬ 0 < s.rx_count := by omega
    simp [uart_peek_byte, uart_try_recv_byte, hn]
  · intro h
    simp [uart_peek_byte, uart_try_recv_byte, h]

/-- Witness for claim C10: the empty capacity-4 buffer yields the zero
sentinel with no mutation; the buffer holding "AB" peeks 'A' and pops 'A'
leaving one byte. -/
theorem claim_C10_try_recv_peek_witness :
    (uart_peek_byte (uartInit 4) = 0 ∧
      uart_try_recv_byte 4 (uartInit 4) = (0, uartInit 4)) ∧
    uart_peek_byte rxAB = 65 ∧
    uart_try_recv_byte 4 rxAB = (65, { rxAB with rx_count := 1, rx_out := 1 }) := by
  refine ⟨(claim_C10_try_recv_peek 4 (uartInit 4)).1 (by decide), ?_, ?_⟩
  · exact ((claim_C10_try_recv_peek 4 rxAB).2 (by decide)).1.trans (by decide)
  · exact (((claim_C10_try_recv_peek 4 rxAB).2 (by decide)).2.1).trans (by decide)

theorem bufWindow_length (N : Nat) (buf : List Nat) :
    ∀ n cur, (bufWindow N buf n cur).length = n := by
  intro n
  induction n with
  | zero => intro cur; rfl
  | succ k ih => intro cur; simp [bufWindow, ih]

theorem copySeqLoop_spec :
    ∀ (str : List Nat) (i : Nat) (seq : List Nat), 0 ∉ str →
      seq.length = UART_MAX_SEQ_LEN → i ≤ UART_MAX_SEQ_LEN →
      (copySeqLoop str i seq).2 = i + min str.length (UART_MAX_SEQ_LEN - i) ∧
      (copySeqLoop str i seq).1.length = UART_MAX_SEQ_LEN ∧
      (∀ j, j < i → (copySeqLoop str i seq).1.getD j 0 = seq.getD j 0) ∧
      (∀ k, k < min str.length (UART_MAX_SEQ_LEN - i) →
        (copySeqLoop str i seq).1.getD (i + k) 0 = str.getD k 0) := by
  intro str
  induction str with
  | nil =>
    intro i seq h0 hlen hi
    refine ⟨by simp [copySeqLoop], by simpa [copySeqLoop] using hlen, ?_, ?_⟩
    · intro j hj; rfl
    · intro k hk; simp at hk
  | cons c rest ih =>
    intro i seq h0 hlen hi
    have hc : ¬ c = 0 := fun hcc => h0 (by simp [hcc])
    have h0r : 0 ∉ rest := fun hr => h0 (List.mem_cons_of_mem _ hr)
    by_cases hiM : i < UART_MAX_SEQ_LEN
    · have hstep : copySeqLoop (c :: rest) i seq = copySeqLoop rest (i + 1) (seq.set i c) := by
        simp [copySeqLoop, hiM, hc]
      obtain ⟨ha, hb, hprev, hnew⟩ :=
        ih (i + 1) (seq.set i c) h0r (by simp [hlen]) (by omega)
      rw [hstep]
      refine ⟨?_, hb, ?_, ?_⟩
      · rw [ha]; simp [List.length_cons]; omega
      · intro j hj
        rw [hprev j (by omega)]
        exact getD_set_other (by omega)
      · intro k hk
        have hk1 : k < min (rest.length + 1) (UART_MAX_SEQ_LEN - i) := by
          simpa [List.length_cons] using hk
        cases k with
        | zero =>
          have hset : (copySeqLoop rest (i + 1) (seq.set i c)).1.getD i 0
              = (seq.set i c).getD i 0 := hprev i (by omega)
          calc (copySeqLoop rest (i + 1) (seq.set i c)).1.getD (i + 0) 0
              = (copySeqLoop rest (i + 1) (seq.set i c)).1.getD i 0 := rfl
            _ = (seq.set i c).getD i 0 := hset
            _ = c := getD_set_self (by omega)
            _ = (c :: rest).getD 0 0 := rfl
        | succ k2 =>
          have hk2 : k2 < min rest.length (UART_MAX_SEQ_LEN - (i + 1)) := by omega
          have hval := hnew k2 hk2
          calc (copySeqLoop rest (i + 1) (seq.set i c)).1.getD (i + (k2 + 1)) 0
              = (copySeqLoop rest (i + 1) (seq.set i c)).1.getD ((i + 1) + k2) 0 := by
                have harith : i + (k2 + 1) = (i + 1) + k2 := by omega
                rw [harith]
            _ = rest.getD k2 0 := hval
            _ = (c :: rest).getD (k2 + 1) 0 := rfl
    · have hieq : ¬ (i < UART_MAX_SEQ_LEN ∧ ¬ c = 0) := fun h => hiM h.1
      have hstep : copySeqLoop (c :: rest) i seq = (seq, i) := by
        simp [copySeqLoop, hiM]
      rw [hstep]
      have hM : UART_MAX_SEQ_LEN - i = 0 := by omega
      refine ⟨by simp [hM], hlen, ?_, ?_⟩
      · intro j hj; rfl
      · intro k hk; rw [hM] at hk; simp at hk

theorem register_success_eq (str : List Nat) (a : Nat) (data : Nat) (m : UartMatch)
    (hfull : ¬ m.match_idx_max = UART_MATCH_MAX) :
    uart_register_match str (some a) data m =
      ⟨⟨m.match_idx_max + 1,
        m.entries.set m.match_idx_max
          ⟨(m.entries.getD m.match_idx_max defaultEntry).count,
           (copySeqLoop str 0 (m.entries.getD m.match_idx_max defaultEntry).seq).2 % 16,
           (if (copySeqLoop str 0 (m.entries.getD m.match_idx_max defaultEntry).seq).2
                < UART_MAX_SEQ_LEN
            then (copySeqLoop str 0 (m.entries.getD m.match_idx_max defaultEntry).seq).1.set
                   (copySeqLoop str 0 (m.entries.getD m.match_idx_max defaultEntry).seq).2 0
            else (copySeqLoop str 0 (m.entries.getD m.match_idx_max defaultEntry).seq).1),
           some a, data⟩,
        m.triggered_mask⟩, 0,
       decide (UART_MAX_SEQ_LEN ≤
         (copySeqLoop str 0 (m.entries.getD m.match_idx_max defaultEntry).seq).2)⟩ := by
  simp [uart_register_match, hfull]

/-- Claim C5: registration fails exactly when the callback is absent or the
table already holds `UART_MATCH_MAX` entries; on failure the matcher state
is unchanged; on success the sequence truncated to `UART_MAX_SEQ_LEN`
bytes, its length, the callback and the user data are stored in the next
free slot, the entry count is incremented by one, and every other slot and
the triggered mask are untouched. -/
theorem claim_C5_register (m : UartMatch) (str : List Nat) (handler : Option Nat) (data : Nat)
    (hlen : m.entries.length = UART_MATCH_MAX)
    (hmx : m.match_idx_max ≤ UART_MATCH_MAX)
    (hseq : (m.entries.getD m.match_idx_max defaultEntry).seq.length = UART_MAX_SEQ_LEN)
    (hstr : 0 ∉ str) :
    ((uart_register_match str handler data m).ret ≠ 0 ↔
      handler = none ∨ m.match_idx_max = UART_MATCH_MAX) ∧
    ((uart_register_match str handler data m).ret ≠ 0 →
      (uart_register_match str handler data m).state = m) ∧
    (handler ≠ none → ¬ m.match_idx_max = UART_MATCH_MAX →
      (uart_register_match str handler data m).ret = 0 ∧
      (uart_register_match str handler data m).state.match_idx_max = m.match_idx_max + 1 ∧
      ((uart_register_match str handler data m).state.entries.getD
          m.match_idx_max defaultEntry).len = min str.length UART_MAX_SEQ_LEN ∧
      (∀ k, k < min str.length UART_MAX_SEQ_LEN →
        ((uart_register_match str handler data m).state.entries.getD
            m.match_idx_max defaultEntry).seq.getD k 0 = str.getD k 0) ∧
      ((uart_register_match str handler data m).state.entries.getD
          m.match_idx_max defaultEntry).handler = handler ∧
      ((uart_register_match str handler data m).state.entries.getD
          m.match_idx_max defaultEntry).data = data ∧
      (∀ j, ¬ j = m.match_idx_max →
        (uart_register_match str handler data m).state.entries.getD j defaultEntry =
          m.entries.getD j defaultEntry) ∧
      (uart_register_match str handler data m).state.triggered_mask = m.triggered_mask) := by
  rcases handler with _ | a
  · refine ⟨?_, ?_, ?_⟩
    · simp [uart_register_match]
    · intro _; simp [uart_register_match]
    · intro hcontra _; exact absurd rfl hcontra
  · by_cases hfull : m.match_idx_max = UART_MATCH_MAX
    · refine ⟨?_, ?_, ?_⟩
      · simp [uart_register_match, hfull]
      · intro _; simp [uart_register_match, hfull]
      · intro _ hlt; exact absurd hfull hlt
    · have hmxlt : m.match_idx_max < UART_MATCH_MAX := by omega
      have hmxlen : m.match_idx_max < m.entries.length := by omega
      obtain ⟨ha, hb, hprev, hnew⟩ :=
        copySeqLoop_spec str 0 (m.entries.getD m.match_idx_max defaultEntry).seq
          hstr hseq (by omega)
      have hsub : UART_MAX_SEQ_LEN - 0 = UART_MAX_SEQ_LEN := by omega
      rw [hsub] at ha hnew
      rw [Nat.zero_add] at ha
      have hminle : min str.length UART_MAX_SEQ_LEN ≤ UART_MAX_SEQ_LEN :=
        Nat.min_le_right _ _
      rw [register_success_eq str a data m hfull]
      have hget :
          (m.entries.set m.match_idx_max
            ⟨(m.entries.getD m.match_idx_max defaultEntry).count,
             (copySeqLoop str 0 (m.entries.getD m.match_idx_max defaultEntry).seq).2 % 16,
             (if (copySeqLoop str 0 (m.entries.getD m.match_idx_max defaultEntry).seq).2
                  < UART_MAX_SEQ_LEN
              then (copySeqLoop str 0 (m.entries.getD m.match_idx_max defaultEntry).seq).1.set
                     (copySeqLoop str 0 (m.entries.getD m.match_idx_max defaultEntry).seq).2 0
              else (copySeqLoop str 0
                     (m.entries.getD m.match_idx_max defaultEntry).seq).1),
             some a, data⟩).getD m.match_idx_max defaultEntry =
            ⟨(m.entries.getD m.match_idx_max defaultEntry).count,
             (copySeqLoop str 0 (m.entries.getD m.match_idx_max defaultEntry).seq).2 % 16,
             (if (copySeqLoop str 0 (m.entries.getD m.match_idx_max defaultEntry).seq).2
                  < UART_MAX_SEQ_LEN
              then (copySeqLoop str 0 (m.entries.getD m.match_idx_max defaultEntry).seq).1.set
                     (copySeqLoop str 0 (m.entries.getD m.match_idx_max defaultEntry).seq).2 0
              else (copySeqLoop str 0
                     (m.entries.getD m.match_idx_max defaultEntry).seq).1),
             some a, data⟩ := getD_set_self hmxlen
      refine ⟨?_, ?_, ?_⟩
      · simp [hfull]
      · intro hcon; exact absurd rfl hcon
      · intro _ _
        dsimp only
        refine ⟨rfl, rfl, ?_, ?_, ?_, ?_, ?_, rfl⟩
        · rw [hget]
          show (copySeqLoop str 0 (m.entries.getD m.match_idx_max defaultEntry).seq).2 % 16 = _
          rw [ha]
          have hM8 : UART_MAX_SEQ_LEN = 8 := rfl
          exact Nat.mod_eq_of_lt (by omega)
        · intro k hk
          rw [hget]
          show (if (copySeqLoop str 0 (m.entries.getD m.match_idx_max defaultEntry).seq).2
                  < UART_MAX_SEQ_LEN
             then (copySeqLoop str 0 (m.entries.getD m.match_idx_max defaultEntry).seq).1.set
                    (copySeqLoop str 0 (m.entries.getD m.match_idx_max defaultEntry).seq).2 0
             else (copySeqLoop str 0
                    (m.entries.getD m.match_idx_max defaultEntry).seq).1).getD k 0 = _
          have hkp : k < (copySeqLoop str 0
              (m.entries.getD m.match_idx_max defaultEntry).seq).2 := by
            rw [ha]; exact hk
          have hval := hnew k hk
          rw [Nat.zero_add] at hval
          by_cases hlt : (copySeqLoop str 0
              (m.entries.getD m.match_idx_max defaultEntry).seq).2 < UART_MAX_SEQ_LEN
          · rw [if_pos hlt, getD_set_other (by omega)]
            exact hval
          · rw [if_neg hlt]
            exact hval
        · rw [hget]
        · rw [hget]
        · intro j hj
          exact getD_set_other (fun he => hj he.symm)

/-- Witness for claim C5: registering "ab" into the empty table succeeds
and stores the truncated sequence at slot 0. -/
theorem claim_C5_register_witness :
    (uart_register_match [97, 98] (some 1) 0 emptyMatch).ret = 0 ∧
    (uart_register_match [97, 98] (some 1) 0 emptyMatch).state.match_idx_max = 1 ∧
    ((uart_register_match [97, 98] (some 1) 0
        emptyMatch).state.entries.getD 0 defaultEntry).len = 2 := by
  have h := (claim_C5_register emptyMatch [97, 98] (some 1) 0
      (by decide) (by decide) (by decide) (by decide)).2.2
      (by intro hcon; cases hcon) (by decide)
  refine ⟨h.1, h.2.1, h.2.2.1.trans (by decide)⟩

/-- Claim C6: for an entry in a reachable state (progress strictly below
the length, length within the 4-bit field), the per-entry inspection step
of `uart_do_match` is exactly the three-rule update the specification
describes: a byte extending the partial match increments progress
(triggering when it reaches the length), otherwise a byte equal to the
first sequence byte while a partial match is in progress resets progress
to 1, otherwise progress resets to 0.  Concretely, registering "cmd" and
feeding 'c','m','x','c','m','d' sets its trigger bit, feeding 'c','m','x'
resets progress to 0 (the mismatching 'x' differs from the first byte),
and feeding 'c','m','c' restarts progress at 1. -/
theorem claim_C6_inspect_rule :
    (∀ e udr, e.count < e.len → e.len ≤ 15 →
      matchStep udr e = inspectRule udr e) ∧
    (doMatchFeed [99, 109, 120, 99, 109, 100] regCmd).triggered_mask = 1 ∧
    (doMatchFeed [99, 109, 100] regCmd).triggered_mask = 1 ∧
    ((doMatchFeed [99, 109, 120] regCmd).entries.getD 0 defaultEntry).count = 0 ∧
    (doMatchFeed [99, 109, 120] regCmd).triggered_mask = 0 ∧
    ((doMatchFeed [99, 109, 99] regCmd).entries.getD 0 defaultEntry).count = 1 := by
  refine ⟨?_, by decide, by decide, by decide, by decide, by decide⟩
  intro e udr h1 h2
  have hmod : (e.count + 1) % 16 = e.count + 1 := Nat.mod_eq_of_lt (by omega)
  unfold matchStep inspectRule
  rw [hmod]
  by_cases hm : udr = e.seq.getD e.count 0
  · simp [hm]
  · by_cases h0 : 0 < e.count
    · have hne : e.count ≠ 0 := by omega
      by_cases hf : udr = e.seq.getD 0 0
      · simp [hm, h0, hne, hf]
      · simp [hm, h0, hne, hf]
    · have hz : e.count = 0 := by omega
      have heta : ({ e with count := 0 } : MatchEntry) = e := by
        cases e
        simp_all
      simp [hm, h0, hz, heta]

/-- Witness for claim C6: the "abc" entry with progress 1 extends on 'b'. -/
theorem claim_C6_inspect_rule_witness :
    matchStep 98 ⟨1, 3, [97, 98, 99, 0, 0, 0, 0, 0], some 2, 0⟩ =
      inspectRule 98 ⟨1, 3, [97, 98, 99, 0, 0, 0, 0, 0], some 2, 0⟩ :=
  claim_C6_inspect_rule.1 ⟨1, 3, [97, 98, 99, 0, 0, 0, 0, 0], some 2, 0⟩ 98
    (by decide) (by decide)

theorem findMatchIdx_eq_none (str : List Nat) :
    ∀ l : List MatchEntry,
      (∀ j, j < l.length → entryMatches (l.getD j defaultEntry) str = false) →
      findMatchIdx str l = none := by
  intro l
  induction l with
  | nil => intro _; rfl
  | cons e t ih =>
    intro h
    have h0 : entryMatches e str = false := h 0 (by simp)
    have hrec : findMatchIdx str t = none := by
      refine ih ?_
      intro j hj
      exact h (j + 1) (by simpa using Nat.succ_lt_succ hj)
    simp [findMatchIdx, h0, hrec]

theorem findMatchIdx_eq_some (str : List Nat) :
    ∀ (l : List MatchEntry) (i : Nat), i < l.length →
      entryMatches (l.getD i defaultEntry) str = true →
      (∀ j, j < i → entryMatches (l.getD j defaultEntry) str = false) →
      findMatchIdx str l = some i := by
  intro l
  induction l with
  | nil => intro i hi; simp at hi
  | cons e t ih =>
    intro i hi hm hfirst
    cases i with
    | zero =>
      have hm0 : entryMatches e str = true := hm
      simp [findMatchIdx, hm0]
    | succ i2 =>
      have h0 : entryMatches e str = false := hfirst 0 (Nat.succ_pos _)
      have hrec : findMatchIdx str t = some i2 := by
        refine ih i2 (by simpa using hi) hm ?_
        intro j hj
        exact hfirst (j + 1) (Nat.succ_lt_succ hj)
      simp [findMatchIdx, h0, hrec]

theorem dereg_found_eq (s : List Nat) (m : UartMatch) (i : Nat)
    (hfind : findMatchIdx s (m.entries.take m.match_idx_max) = some i) :
    uart_deregister_match (some s) m =
      ⟨m.match_idx_max - 1,
       (List.range m.entries.length).map (fun j =>
         if i ≤ j ∧ j + 1 < m.match_idx_max then m.entries.getD (j + 1) defaultEntry
         else m.entries.getD j defaultEntry),
       m.triggered_mask⟩ := by
  simp [uart_deregister_match, hfind]

theorem dereg_notfound_eq (s : List Nat) (m : UartMatch)
    (hfind : findMatchIdx s (m.entries.take m.match_idx_max) = none) :
    uart_deregister_match (some s) m = m := by
  simp [uart_deregister_match, hfind]

/-- Claim C7: deregistration with an absent sequence is a no-op; when no
live entry compares equal (up to its stored length) it is a no-op; when
some entry matches, the first matching index `i` is removed by shifting
every later live entry one slot earlier and the live count drops by one,
the triggered mask untouched.  Concretely, registering "x", "y", "z" and
deregistering "y" leaves count 2 with "x" and "z" still matchable (each
can still trigger), and a fourth registration reuses the freed slot 2. -/
theorem claim_C7_deregister (m : UartMatch) (s : List Nat)
    (hlen : m.entries.length = UART_MATCH_MAX)
    (hmx : m.match_idx_max ≤ UART_MATCH_MAX) :
    (uart_deregister_match none m = m) ∧
    ((∀ j, j < m.match_idx_max →
        entryMatches (m.entries.getD j defaultEntry) s = false) →
      uart_deregister_match (some s) m = m) ∧
    (∀ i, i < m.match_idx_max →
      entryMatches (m.entries.getD i defaultEntry) s = true →
      (∀ j, j < i → entryMatches (m.entries.getD j defaultEntry) s = false) →
      (uart_deregister_match (some s) m).match_idx_max = m.match_idx_max - 1 ∧
      (∀ j, j + 1 < m.match_idx_max →
        (uart_deregister_match (some s) m).entries.getD j defaultEntry =
          if j < i then m.entries.getD j defaultEntry
          else m.entries.getD (j + 1) defaultEntry) ∧
      (uart_deregister_match (some s) m).triggered_mask = m.triggered_mask) ∧
    ((uart_deregister_match (some [121]) regXyz).match_idx_max = 2 ∧
      ((uart_deregister_match (some [121]) regXyz).entries.getD 0
        defaultEntry).handler = some 11 ∧
      ((uart_deregister_match (some [121]) regXyz).entries.getD 1
        defaultEntry).handler = some 13 ∧
      (uart_do_match 120
        (uart_deregister_match (some [121]) regXyz)).triggered_mask = 1 ∧
      (uart_do_match 122
        (uart_deregister_match (some [121]) regXyz)).triggered_mask = 2 ∧
      (uart_register_match [119] (some 14) 0
        (uart_deregister_match (some [121]) regXyz)).ret = 0 ∧
      (uart_register_match [119] (some 14) 0
        (uart_deregister_match (some [121]) regXyz)).state.match_idx_max = 3 ∧
      ((uart_register_match [119] (some 14) 0
        (uart_deregister_match (some [121]) regXyz)).state.entries.getD 2
        defaultEntry).handler = some 14) := by
  have htklen : (m.entries.take m.match_idx_max).length = m.match_idx_max := by
    rw [List.length_take]
    omega
  refine ⟨rfl, ?_, ?_, by decide⟩
  · intro hnone
    have hfind : findMatchIdx s (m.entries.take m.match_idx_max) = none := by
      refine findMatchIdx_eq_none s _ ?_
      intro j hj
      rw [htklen] at hj
      rw [getD_take hj]
      exact hnone j hj
    exact dereg_notfound_eq s m hfind
  · intro i hi hmi hfirst
    have hfind : findMatchIdx s (m.entries.take m.match_idx_max) = some i := by
      refine findMatchIdx_eq_some s _ i (by rw [htklen]; exact hi) ?_ ?_
      · rw [getD_take hi]
        exact hmi
      · intro j hj
        rw [getD_take (by omega)]
        exact hfirst j hj
    rw [dereg_found_eq s m i hfind]
    refine ⟨rfl, ?_, rfl⟩
    intro j hj
    have hjlen : j < m.entries.length := by omega
    rw [getD_range_map _ defaultEntry hjlen]
    by_cases hji : j < i
    · have hni : ¬ (i ≤ j ∧ j + 1 < m.match_idx_max) := fun h => by omega
      rw [if_neg hni, if_pos hji]
    · have hyi : i ≤ j ∧ j + 1 < m.match_idx_max := ⟨by omega, hj⟩
      rw [if_pos hyi, if_neg hji]

/-- Witness for claim C7: deregistering "y" from the "x","y","z" table via
the general removal property drops the live count to 2. -/
theorem claim_C7_deregister_witness :
    (uart_deregister_match (some [121]) regXyz).match_idx_max = 2 := by
  have h := (claim_C7_deregister regXyz [121] (by decide) (by decide)).2.2.1 1
    (by decide) (by decide)
    (by
      intro j hj
      have hj0 : j = 0 := by omega
      subst hj0
      decide)
  exact h.1.trans (by decide)

theorem recvN_window (N : Nat) (h0 : 0 < N) :
    ∀ (n : Nat) (s : Uart), n ≤ s.rx_count → s.rx_out < N →
    ∃ s2, recvN N n s = some (bufWindow N s.rx_buffer n s.rx_out, s2) ∧
      s2.rx_buffer = s.rx_buffer ∧ s2.rx_count = s.rx_count - n ∧
      s2.rx_out < N ∧ s2.rx_in = s.rx_in ∧
      s2.tx_count = s.tx_count ∧ s2.tx_buffer = s.tx_buffer := by
  intro n
  induction n with
  | zero =>
    intro s hn ho
    exact ⟨s, rfl, rfl, by omega, ho, rfl, rfl, rfl⟩
  | succ k ih =>
    intro s hn ho
    have hpos : 0 < s.rx_count := by omega
    have hpop : uart_recv_byte N s =
        some (s.rx_buffer.getD s.rx_out 0,
          { s with
              rx_count := s.rx_count - 1,
              rx_out := if s.rx_out + 1 = N then 0 else s.rx_out + 1 }) := by
      simp [uart_recv_byte, hpos]
    have hout : (if s.rx_out + 1 = N then 0 else s.rx_out + 1) < N := by
      by_cases hw : s.rx_out + 1 = N
      · simpa [hw] using h0
      · simp [hw]; omega
    obtain ⟨s2, hrec, hbuf, hcnt, hout2, hin2, htc, htb⟩ :=
      ih { s with
            rx_count := s.rx_count - 1,
            rx_out := if s.rx_out + 1 = N then 0 else s.rx_out + 1 }
        (by simp; omega) hout
    refine ⟨s2, ?_, by simpa using hbuf, by simp at hcnt; omega, hout2,
      by simpa using hin2, by simpa using htc, by simpa using htb⟩
    show (uart_recv_byte N s).bind _ = _
    rw [hpop]
    show (recvN N k _).map _ = _
    rw [hrec]
    show some _ = some _
    refine congrArg some ?_
    refine Prod.ext ?_ rfl
    show s.rx_buffer.getD s.rx_out 0 :: bufWindow N s.rx_buffer k _ = _
    rfl

/-- Claim C9: the multi-byte peek clamps the request to the capacity and,
when the RX count has reached that clamped number, returns exactly that
many bytes read from `rx_out` onward in FIFO order together with their
count, mutating nothing — the very same bytes a subsequent sequence of
blocking receives returns, which still finds the buffer content intact.
Concretely, after filling a capacity-4 RX buffer with "AB", peeking 2
bytes yields "AB" with the count still 2 and a subsequent 2-byte receive
again yields "AB", dropping the count to 0; a request of 9 bytes on a full
capacity-4 buffer is clamped to 4. -/
theorem claim_C9_peek (N : Nat) (s : Uart) (len : Nat) (h0 : 0 < N)
    (ho : s.rx_out < N) (hc : min len N ≤ s.rx_count) :
    (∃ bs, uart_peek N s len = some (bs, min len N) ∧
       bs.length = min len N ∧
       ∃ s2, recvN N (min len N) s = some (bs, s2) ∧
         s2.rx_buffer = s.rx_buffer ∧ s2.rx_in = s.rx_in ∧
         s2.rx_count = s.rx_count - min len N) ∧
    (uart_peek 4 rxAB 2 = some ([65, 66], 2) ∧
      rxAB.rx_count = 2 ∧
      (recvN 4 2 rxAB).map (fun p => (p.1, p.2.rx_count)) = some ([65, 66], 0) ∧
      uart_peek 4 (rxFeed 4 [1, 2, 3, 4] (uartInit 4)) 9 =
        some ([1, 2, 3, 4], 4)) := by
  refine ⟨?_, by decide, by decide, by decide, by decide⟩
  have hclamp : (if len > N then N else len) = min len N := by
    by_cases hg : len > N
    · simp [hg]
      omega
    · simp [hg]
      omega
  have hpeek : uart_peek N s len =
      some (bufWindow N s.rx_buffer (min len N) s.rx_out, min len N) := by
    have hnw : ¬ s.rx_count < min len N := by omega
    simp only [uart_peek, hclamp]
    rw [if_neg hnw]
  obtain ⟨s2, hrec, hbuf, hcnt, _, hin, _, _⟩ :=
    recvN_window N h0 (min len N) s hc ho
  exact ⟨bufWindow N s.rx_buffer (min len N) s.rx_out, hpeek,
    bufWindow_length N s.rx_buffer (min len N) s.rx_out,
    s2, hrec, hbuf, hin, hcnt⟩

/-- Witness for claim C9: peeking two bytes of the capacity-4 buffer
holding "AB". -/
theorem claim_C9_peek_witness :
    ∃ bs, uart_peek 4 rxAB 2 = some (bs, min 2 4) ∧
      bs.length = min 2 4 ∧
      ∃ s2, recvN 4 (min 2 4) rxAB = some (bs, s2) ∧
        s2.rx_buffer = rxAB.rx_buffer ∧ s2.rx_in = rxAB.rx_in ∧
        s2.rx_count = rxAB.rx_count - min 2 4 :=
  (claim_C9_peek 4 rxAB 2 (by decide) (by decide) (by decide)).1

theorem addWrapNe {cur k N : Nat} (hcur : cur < N) (hk : 0 < k) (hkN : k < N) :
    ¬ (cur + k) % N = cur := by
  intro h
  rcases Nat.lt_or_ge (cur + k) N with hlt | hge
  · rw [Nat.mod_eq_of_lt hlt] at h
    omega
  · have h2 : (cur + k) % N = cur + k - N := by
      rw [Nat.mod_eq_sub_mod hge, Nat.mod_eq_of_lt (by omega)]
    omega

theorem bufWindow_set (N : Nat) (buf : List Nat) (c : Nat) :
    ∀ n cur, cur < N → n < N → buf.length = N →
    bufWindow N (buf.set ((cur + n) % N) c) (n + 1) cur =
      bufWindow N buf n cur ++ [c] := by
  intro n
  induction n with
  | zero =>
    intro cur hcur _ hlen
    have hm : (cur + 0) % N = cur := by
      rw [Nat.add_zero, Nat.mod_eq_of_lt hcur]
    rw [hm]
    show (buf.set cur c).getD cur 0
        :: bufWindow N (buf.set cur c) 0 (if cur + 1 = N then 0 else cur + 1)
      = [] ++ [c]
    rw [getD_set_self (by omega)]
    rfl
  | succ k ih =>
    intro cur hcur hk hlen
    have hne : ¬ (cur + (k + 1)) % N = cur := addWrapNe hcur (by omega) hk
    have hstep : (if cur + 1 = N then 0 else cur + 1) = (cur + 1) % N :=
      wrapStep hcur
    have hcur2 : (cur + 1) % N < N := Nat.mod_lt _ (by omega)
    have hidx : ((cur + 1) % N + k) % N = (cur + (k + 1)) % N := by
      rw [Nat.mod_add_mod]
      have harith : cur + 1 + k = cur + (k + 1) := by omega
      rw [harith]
    have hih := ih ((cur + 1) % N) hcur2 (by omega) hlen
    rw [hidx] at hih
    show (buf.set ((cur + (k + 1)) % N) c).getD cur 0
        :: bufWindow N (buf.set ((cur + (k + 1)) % N) c) (k + 1)
             (if cur + 1 = N then 0 else cur + 1)
      = (buf.getD cur 0
          :: bufWindow N buf k (if cur + 1 = N then 0 else cur + 1)) ++ [c]
    rw [hstep, hih, getD_set_other hne]
    rfl

theorem send_props (N c : Nat) (s : Uart) (hInv : TxInv N s)
    (hful : s.tx_count < N) :
    ∃ s1, uart_send_byte N c s = some s1 ∧ TxInv N s1 ∧
      txQueue N s1 = txQueue N s ++ [c] ∧
      s1.tx_count = s.tx_count + 1 ∧ s1.udre_enabled = true ∧
      s1.rx_count = s.rx_count ∧ s1.rx_buffer = s.rx_buffer ∧
      s1.rx_in = s.rx_in ∧ s1.rx_out = s.rx_out := by
  obtain ⟨hlen, hout, hcnt, hin⟩ := hInv
  have hN0 : 0 < N := by omega
  have hsome : uart_send_byte N c s = some { s with
      tx_count := s.tx_count + 1,
      tx_buffer := s.tx_buffer.set s.tx_in c,
      tx_in := if s.tx_in + 1 = N then 0 else s.tx_in + 1,
      udre_enabled := true } := by
    have hne : ¬ s.tx_count = N := by omega
    simp [uart_send_byte, hne]
  refine ⟨_, hsome, ?_, ?_, rfl, rfl, rfl, rfl, rfl, rfl⟩
  · unfold TxInv
    refine ⟨?_, ?_, ?_, ?_⟩
    · show (s.tx_buffer.set s.tx_in c).length = N
      rw [List.length_set]
      exact hlen
    · show s.tx_out < N
      exact hout
    · show s.tx_count + 1 ≤ N
      omega
    · show (if s.tx_in + 1 = N then 0 else s.tx_in + 1)
          = (s.tx_out + (s.tx_count + 1)) % N
      have hinlt : s.tx_in < N := by
        rw [hin]
        exact Nat.mod_lt _ hN0
      rw [wrapStep hinlt, hin, Nat.mod_add_mod]
      have harith : s.tx_out + s.tx_count + 1 = s.tx_out + (s.tx_count + 1) := by
        omega
      rw [harith]
  · show bufWindow N (s.tx_buffer.set s.tx_in c) (s.tx_count + 1) s.tx_out
        = bufWindow N s.tx_buffer s.tx_count s.tx_out ++ [c]
    rw [hin]
    exact bufWindow_set N s.tx_buffer c s.tx_count s.tx_out hout hful hlen

theorem isr_props (N : Nat) (s : Uart) (hInv : TxInv N s)
    (hpos : 0 < s.tx_count) :
    ∃ s1, isr_udre N s = (s1, some (s.tx_buffer.getD s.tx_out 0)) ∧
      TxInv N s1 ∧
      txQueue N s = s.tx_buffer.getD s.tx_out 0 :: txQueue N s1 ∧
      s1.tx_count = s.tx_count - 1 ∧ s1.tx_buffer = s.tx_buffer ∧
      s1.udre_enabled = (if s.tx_count - 1 = 0 then false else s.udre_enabled) ∧
      s1.rx_count = s.rx_count ∧ s1.rx_buffer = s.rx_buffer ∧
      s1.rx_in = s.rx_in ∧ s1.rx_out = s.rx_out := by
  obtain ⟨hlen, hout, hcnt, hin⟩ := hInv
  have hN0 : 0 < N := by omega
  have hisr : isr_udre N s = ({ s with
      tx_out := if s.tx_out + 1 = N then 0 else s.tx_out + 1,
      tx_count := s.tx_count - 1,
      udre_enabled := if s.tx_count - 1 = 0 then false else s.udre_enabled },
      some (s.tx_buffer.getD s.tx_out 0)) := by
    simp [isr_udre, hpos]
  refine ⟨_, hisr, ?_, ?_, rfl, rfl, rfl, rfl, rfl, rfl, rfl⟩
  · unfold TxInv
    refine ⟨hlen, ?_, ?_, ?_⟩
    · show (if s.tx_out + 1 = N then 0 else s.tx_out + 1) < N
      by_cases hw : s.tx_out + 1 = N
      · simpa [hw] using hN0
      · simp [hw]
        omega
    · show s.tx_count - 1 ≤ N
      omega
    · show s.tx_in
          = ((if s.tx_out + 1 = N then 0 else s.tx_out + 1) + (s.tx_count - 1)) % N
      rw [wrapStep hout, Nat.mod_add_mod, hin]
      have harith : s.tx_out + 1 + (s.tx_count - 1) = s.tx_out + s.tx_count := by
        omega
      rw [harith]
  · show bufWindow N s.tx_buffer s.tx_count s.tx_out
        = s.tx_buffer.getD s.tx_out 0
          :: bufWindow N s.tx_buffer (s.tx_count - 1)
               (if s.tx_out + 1 = N then 0 else s.tx_out + 1)
    obtain ⟨k, hk⟩ : ∃ k, s.tx_count = k + 1 := ⟨s.tx_count - 1, by omega⟩
    rw [hk]
    simp [bufWindow]

theorem sendAll_props (N : Nat) :
    ∀ (bs : List Nat) (s : Uart), TxInv N s → s.tx_count + bs.length ≤ N →
    ∃ s1, sendAll N bs s = some s1 ∧ TxInv N s1 ∧
      txQueue N s1 = txQueue N s ++ bs ∧
      s1.tx_count = s.tx_count + bs.length ∧
      s1.udre_enabled = (if bs.isEmpty then s.udre_enabled else true) := by
  intro bs
  induction bs with
  | nil =>
    intro s hInv hle
    exact ⟨s, rfl, hInv, by simp, by simp, by simp⟩
  | cons c cs ih =>
    intro s hInv hle
    obtain ⟨s1, hsend, hInv1, hq1, hc1, hu1, _, _, _, _⟩ :=
      send_props N c s hInv (by simp at hle; omega)
    obtain ⟨s2, hrec, hInv2, hq2, hc2, hu2⟩ :=
      ih s1 hInv1 (by rw [hc1]; simp at hle ⊢; omega)
    refine ⟨s2, ?_, hInv2, ?_, ?_, ?_⟩
    · show (uart_send_byte N c s).bind (sendAll N cs) = some s2
      rw [hsend]
      exact hrec
    · rw [hq2, hq1]
      simp
    · rw [hc2, hc1]
      simp only [List.length_cons]
      omega
    · rw [hu2]
      by_cases hcs : cs.isEmpty <;> simp [hcs, hu1]

theorem isrRun_props (N : Nat) :
    ∀ (k : Nat) (s : Uart), TxInv N s → k ≤ s.tx_count →
    ∃ s1, isrRun N k s = (s1, (txQueue N s).take k) ∧ TxInv N s1 ∧
      txQueue N s1 = (txQueue N s).drop k ∧
      s1.tx_count = s.tx_count - k ∧
      s1.udre_enabled =
        (if 0 < k ∧ s.tx_count = k then false else s.udre_enabled) := by
  intro k
  induction k with
  | zero =>
    intro s hInv hk
    refine ⟨s, rfl, hInv, by simp, by omega, by simp⟩
  | succ j ih =>
    intro s hInv hk
    obtain ⟨s1, hisr, hInv1, hqhead, hc1, hbuf1, hu1, _, _, _, _⟩ :=
      isr_props N s hInv (by omega)
    obtain ⟨s2, hrun, hInv2, hq2, hc2, hu2⟩ := ih s1 hInv1 (by omega)
    refine ⟨s2, ?_, hInv2, ?_, ?_, ?_⟩
    · show ((isrRun N j (isr_udre N s).1).1,
          (match (isr_udre N s).2 with
           | some b => [b]
           | none => []) ++ (isrRun N j (isr_udre N s).1).2)
        = (s2, (txQueue N s).take (j + 1))
      rw [hisr]
      dsimp only
      rw [hrun]
      dsimp only
      rw [hqhead, List.take_succ_cons]
      rfl
    · rw [hq2, hqhead, List.drop_succ_cons]
    · rw [hc2, hc1]
      omega
    · rw [hu2, hc1, hu1]
      split_ifs <;> first | rfl | omega

/-- Claim C4: starting from the freshly initialized (empty) TX buffer of
capacity `N`, blocking-enqueueing the bytes `bs` (at most `N` of them,
at least one) and then invoking the transmit-ready handler `bs.length`
times writes exactly `bs` to the hardware data register in strict FIFO
enqueue order; the final invocation — the one that brings the TX count to
zero — disables further transmit-ready notifications, while after every
earlier prefix of invocations they are still enabled. -/
theorem claim_C4_tx_fifo (N : Nat) (bs : List Nat) (hblen : bs.length ≤ N)
    (hne : bs ≠ []) :
    ∃ s, sendAll N bs (uartInit N) = some s ∧
      (isrRun N bs.length s).2 = bs ∧
      (isrRun N bs.length s).1.tx_count = 0 ∧
      (isrRun N bs.length s).1.udre_enabled = false ∧
      (∀ k, k < bs.length → (isrRun N k s).1.udre_enabled = true) := by
  have hpos : 0 < bs.length := List.length_pos.mpr hne
  have hN0 : 0 < N := by omega
  have hInv0 : TxInv N (uartInit N) := by
    refine ⟨by simp [uartInit], hN0, by simp [uartInit], by simp [uartInit]⟩
  have hbe : bs.isEmpty = false := by
    cases bs with
    | nil => exact absurd rfl hne
    | cons a t => rfl
  obtain ⟨s, hsend, hInv, hq, hc, hu⟩ :=
    sendAll_props N bs (uartInit N) hInv0 (by simp [uartInit]; omega)
  have hq0 : txQueue N (uartInit N) = [] := rfl
  rw [hq0, List.nil_append] at hq
  have hcnt : s.tx_count = bs.length := by
    simpa [uartInit] using hc
  have huen : s.udre_enabled = true := by
    rw [hu, hbe]
    rfl
  obtain ⟨s1, hrun, hInv1, hdrop, hc1, hu1⟩ :=
    isrRun_props N bs.length s hInv (by omega)
  refine ⟨s, hsend, ?_, ?_, ?_, ?_⟩
  · rw [hrun]
    dsimp only
    rw [hq, List.take_length]
  · rw [hrun]
    dsimp only
    omega
  · rw [hrun]
    dsimp only
    rw [hu1]
    have hcond : 0 < bs.length ∧ s.tx_count = bs.length := ⟨hpos, hcnt⟩
    rw [if_pos hcond]
  · intro k hklt
    obtain ⟨s2, hrun2, _, _, _, hu2⟩ :=
      isrRun_props N k s hInv (by omega)
    rw [hrun2]
    dsimp only
    rw [hu2]
    have hcond : ¬ (0 < k ∧ s.tx_count = k) := by omega
    rw [if_neg hcond]
    exact huen

/-- Witness for claim C4: the end-to-end scenario with capacity 4 and the
bytes 'H','i' — two handler invocations emit 'H' then 'i' and the second
disables transmit notifications. -/
theorem claim_C4_tx_fifo_witness :
    ∃ s, sendAll 4 [72, 105] (uartInit 4) = some s ∧
      (isrRun 4 [72, 105].length s).2 = [72, 105] ∧
      (isrRun 4 [72, 105].length s).1.tx_count = 0 ∧
      (isrRun 4 [72, 105].length s).1.udre_enabled = false ∧
      (∀ k, k < [72, 105].length → (isrRun 4 k s).1.udre_enabled = true) :=
  claim_C4_tx_fifo 4 [72, 105] (by decide) (by decide)
